import Mathlib

/-
Verification of the edge-resolution and graph-rendering core of the
octoflow-action repository (src/post.ts).  Each definition below is a
shallow embedding of the corresponding TypeScript function; JavaScript
strings are modelled by Lean strings, nullable values by Option, numbers
by Nat or Int, and thrown exceptions by Except.
-/

/-- Embeds the StepInfo record type of post.ts. -/
structure StepInfo where
  name : String
  status : String
  conclusion : Option String
  started_at : Option String
  completed_at : Option String
deriving Repr, DecidableEq

/-- Embeds the JobNode record type of post.ts (runtime job from the API). -/
structure JobNode where
  id : Nat
  name : String
  status : String
  conclusion : Option String
  started_at : Option String
  completed_at : Option String
  steps : List StepInfo
deriving Repr, DecidableEq

/-- Embeds `type Edge = [string, string]` of post.ts. -/
abbrev Edge := String × String

/-- Model of JavaScript `String.prototype.startsWith` (used as
`job.name.startsWith(...)` in post.ts): character-list prefix test. -/
def strStartsWith (s p : String) : Bool :=
  p.data.isPrefixOf s.data

/-- Model of JavaScript `String.prototype.toLowerCase` for the ASCII
conclusions handled by post.ts: lower-case each character. -/
def strToLower (s : String) : String :=
  ⟨s.data.map Char.toLower⟩

/-- Embeds `ms` of post.ts (lines 28-34).  `parseDate` models
`new Date(x).getTime()`: `none` stands for NaN (unparseable instant).
The JavaScript guard `if (!a || !b) return null` treats the empty string
as absent, hence the explicit test for `""`. -/
def ms (parseDate : String → Option Int) (a b : Option String) : Option Int :=
  match a, b with
  | some sa, some sb =>
    if sa = "" ∨ sb = "" then none
    else
      match parseDate sa, parseDate sb with
      | some da, some db => some (max 0 (db - da))
      | _, _ => none
  | _, _ => none

/-- Embeds `fmtDuration` of post.ts (lines 36-43).  The argument is the
output of `ms`, which is null or a non-negative integer, so the value is
modelled as `Option Nat`; `Math.round(v / 1000)` on a non-negative
integer is `(v + 500) / 1000` in integer arithmetic. -/
def fmtDuration (msValue : Option Nat) : String :=
  match msValue with
  | none => "—"
  | some v =>
    let totalSeconds := (v + 500) / 1000
    let minutes := totalSeconds / 60
    let seconds := totalSeconds % 60
    if minutes ≤ 0 then toString seconds ++ "s"
    else toString minutes ++ "m " ++ toString seconds ++ "s"

/-- Embeds `mapJobIdToApiName` of post.ts (lines 77-85): exact name
match, then prefix match, then bracketed/matrix match, each taking the
first matching job in input order; otherwise the identifier itself. -/
def mapJobIdToApiName (jobId : String) (apiJobs : List JobNode) : String :=
  match apiJobs.find? (fun job => job.name == jobId) with
  | some je => je.name
  | none =>
    match apiJobs.find? (fun job => strStartsWith job.name jobId) with
    | some jp => jp.name
    | none =>
      match apiJobs.find? (fun job => strStartsWith job.name (jobId ++ " (")) with
      | some jb => jb.name
      | none => jobId

/-- Embeds `statusIcon` of post.ts (lines 87-98). -/
def statusIcon (job : JobNode) : String :=
  let conclusion := (job.conclusion.map strToLower).getD ""
  if job.status == "in_progress" then "🟣"
  else if job.status == "queued" then "⚪️"
  else if conclusion == "success" then "✅"
  else if conclusion == "skipped" then "⏭️"
  else if conclusion == "neutral" then "⚪️"
  else if ["failure", "timed_out", "cancelled", "action_required"].contains conclusion then "❌"
  else "⚪️"

/-- Character class `[a-zA-Z0-9_]` of the sanitizer regex in post.ts. -/
def isWordChar (c : Char) : Bool :=
  c.isAlpha || c.isDigit || c == '_'

/-- Embeds the `sanitizeId` closure of `mermaidFlowLR` (post.ts line
105): `value.replace(/[^a-zA-Z0-9_]/g, '_')`. -/
def sanitizeId (value : String) : String :=
  ⟨value.data.map (fun c => if isWordChar c then c else '_')⟩

/-- The Mermaid node identifier built at post.ts line 109:
`J_${sanitizeId(job.name)}_${job.id}`. -/
def nodeId (job : JobNode) : String :=
  "J_" ++ sanitizeId job.name ++ "_" ++ Nat.repr job.id

/-- The visible node label built at post.ts line 110 (the `\n` of the
template literal is an escaped backslash-n, two characters). -/
def nodeLabel (job : JobNode) : String :=
  statusIcon job ++ " " ++ job.name ++ "\\n" ++ (job.conclusion.getD job.status)

/-- The node-declaration line pushed at post.ts line 111. -/
def nodeLine (job : JobNode) : String :=
  nodeId job ++ "[\"" ++ nodeLabel job ++ "\"]"

/-- One iteration of the edge loop of `mermaidFlowLR` (post.ts lines
114-126).  `jobs.find(...) ?? jobs[0]` is `(find? ...).or jobs.head?`;
the `if (!fromJob || !toJob) continue` guard is the `none` fallthrough.
The `if (jobs.length === 0) break` at line 115 makes every iteration a
no-op when `jobs` is empty, which is the `isEmpty` test here. -/
def edgeLine (jobs : List JobNode) (e : Edge) : Option String :=
  if jobs.isEmpty then none
  else
    let fromName := mapJobIdToApiName e.1 jobs
    let toName := mapJobIdToApiName e.2 jobs
    match (jobs.find? (fun job => job.name == fromName)).or jobs.head?,
          (jobs.find? (fun job => job.name == toName)).or jobs.head? with
    | some fromJob, some toJob => some (nodeId fromJob ++ " --> " ++ nodeId toJob)
    | _, _ => none

/-- Embeds `mermaidFlowLR` of post.ts (lines 100-129): header line, one
node line per job in input order, then the surviving edge lines, joined
with newlines inside a fenced code block. -/
def mermaidFlowLR (jobs : List JobNode) (edges : List Edge) : String :=
  if jobs.isEmpty then "```mermaid\nflowchart LR\n```"
  else
    "```mermaid\n" ++
      String.intercalate "\n"
        ("flowchart LR" :: (jobs.map nodeLine ++ edges.filterMap (edgeLine jobs))) ++
      "\n```"

/-- The resolution success predicate of the spec (§4.2): some runtime
node matches the identifier under one of the three rules used by
`mapJobIdToApiName`. -/
def resolves (jobId : String) (jobs : List JobNode) : Bool :=
  jobs.any (fun j =>
    j.name == jobId || strStartsWith j.name jobId ||
      strStartsWith j.name (jobId ++ " ("))

/-- Structured documents as returned by `YAML.parse` in post.ts. -/
inductive Yaml where
  | null : Yaml
  | bool : Bool → Yaml
  | num : Int → Yaml
  | str : String → Yaml
  | arr : List Yaml → Yaml
  | map : List (String × Yaml) → Yaml
deriving Repr

/-- JavaScript truthiness of a parsed YAML value (`!doc`, `!jobs`,
`!needs` in post.ts): null, false, 0 and the empty string are falsy;
objects and arrays are always truthy. -/
def Yaml.truthy : Yaml → Bool
  | .null => false
  | .bool b => b
  | .num n => n != 0
  | .str s => s != ""
  | .arr _ => true
  | .map _ => true

mutual

/-- JavaScript `String(x)` conversion applied to dependency entries at
post.ts line 71.  Arrays join their elements with commas (null elements
become empty), plain objects print as `[object Object]`. -/
def Yaml.jsToString : Yaml → String
  | .null => "null"
  | .bool b => cond b "true" "false"
  | .num n => toString n
  | .str s => s
  | .arr xs => String.intercalate "," (jsToStringArr xs)
  | .map _ => "[object Object]"

/-- Element-wise stringification for `Yaml.jsToString` on arrays. -/
def jsToStringArr : List Yaml → List String
  | [] => []
  | .null :: ys => "" :: jsToStringArr ys
  | y :: ys => Yaml.jsToString y :: jsToStringArr ys

end

/-- JavaScript property access `x.field` on a parsed YAML value: only
plain objects carry named fields (YAML mappings have unique keys). -/
def Yaml.getField : Yaml → String → Option Yaml
  | .map m, k => (m.find? (fun kv => kv.1 == k)).map (fun kv => kv.2)
  | _, _ => none

/-- JavaScript `Object.entries` on a parsed YAML value as used at
post.ts line 66: objects yield their key/value pairs, arrays yield
index/element pairs, strings yield index/character pairs, primitives
yield nothing (`null` is unreachable behind the `!jobs` guard). -/
def Yaml.jsEntries : Yaml → List (String × Yaml)
  | .map m => m
  | .arr xs => xs.enum.map (fun p => (Nat.repr p.1, p.2))
  | .str s => s.data.enum.map (fun p => (Nat.repr p.1, Yaml.str ⟨[p.2]⟩))
  | _ => []

/-- The per-job body of the `parseNeedsEdges` loop (post.ts lines
66-73): skip a falsy or missing `needs`, wrap a non-array value in a
one-element list, and emit one `(String(dep), jobId)` edge per entry. -/
def jobEdges (jobId : String) (jobDef : Yaml) : List Edge :=
  match jobDef.getField "needs" with
  | none => []
  | some needs =>
    if !needs.truthy then []
    else
      match needs with
      | .arr xs => xs.map (fun dep => (dep.jsToString, jobId))
      | y => [(y.jsToString, jobId)]

/-- The document traversal of `parseNeedsEdges` (post.ts lines 61-74):
extract `doc.jobs` when the document is an object, bail out on a falsy
`jobs` value, and concatenate the per-entry edges in iteration order. -/
def extractEdges (doc : Yaml) : List Edge :=
  match doc.getField "jobs" with
  | none => []
  | some jobs =>
    if !jobs.truthy then []
    else (jobs.jsEntries.map (fun kv => jobEdges kv.1 kv.2)).flatten

/-- Embeds `parseNeedsEdges` of post.ts (lines 56-75).  `fileExists`
models `fs.existsSync`; `parsed` models the outcome of `YAML.parse`,
which throws (`Except.error`) on malformed input. -/
def parseNeedsEdges (fileExists : Bool) (parsed : Except String Yaml) :
    Except String (List Edge) :=
  if !fileExists then Except.ok []
  else parsed.map extractEdges

/-- The observable outcome of the pure slice of `run` that the claims
are about: whether the unsupported-format warning was recorded, the
text placed in the Pipeline section of the summary, and the edge list. -/
structure RunOut where
  warnedUnsupportedGraph : Bool
  pipelineSection : String
  edges : List Edge
deriving Repr, DecidableEq

/-- Embeds the edge-parsing / graph-selection slice of `run` (post.ts
lines 216-253): edges are parsed only when a workflow path is known (a
YAML parse error propagates to the surrounding catch, so no summary is
written); the Mermaid graph is built only for the `mermaid` or empty
format, otherwise a warning is recorded; the Pipeline section falls
back to the placeholder text when the graph string is empty (the
`mermaid || '...'` at line 252). -/
def runCore (workflowPath : Option String) (fileExists : Bool)
    (parsed : Except String Yaml) (jobs : List JobNode) (graphFormat : String) :
    Except String RunOut :=
  match (match workflowPath with
         | some _ => parseNeedsEdges fileExists parsed
         | none => Except.ok []) with
  | .error msg => .error msg
  | .ok edges =>
    let mermaid :=
      if graphFormat == "mermaid" || graphFormat == "" then mermaidFlowLR jobs edges
      else ""
    let warned := graphFormat != "mermaid" && graphFormat != ""
    let pipeline :=
      if mermaid == "" then "Mermaid graph is not available yet." else mermaid
    .ok { warnedUnsupportedGraph := warned, pipelineSection := pipeline, edges := edges }

/-- Modelled from the claim of C10: the resolver with only the exact
and prefix rules, for comparison with `mapJobIdToApiName`. -/
def mapJobIdToApiNameNoBracket (jobId : String) (apiJobs : List JobNode) : String :=
  match apiJobs.find? (fun job => job.name == jobId) with
  | some je => je.name
  | none =>
    match apiJobs.find? (fun job => strStartsWith job.name jobId) with
    | some jp => jp.name
    | none => jobId

/-- Decimal representation of `n` as produced by `Nat.repr`, expressed
through `Nat.digits` for proof purposes. -/
def digitsRepr (n : Nat) : List Char :=
  if n = 0 then ['0'] else ((Nat.digits 10 n).map Nat.digitChar).reverse

/-- Decimal value of a digit character (left inverse of
`Nat.digitChar` below 10). -/
def decVal (c : Char) : Nat := c.toNat - 48

/-- A concrete instant parser used by witnesses: the empty string is
unparseable, any other string parses to its length. -/
def sampleParseDate (s : String) : Option Int :=
  if s = "" then none else some (s.length : Int)

/-- A concrete runtime job used by witnesses and counterexamples. -/
def demoJob : JobNode :=
  { id := 1, name := "build", status := "completed", conclusion := some "success",
    started_at := none, completed_at := none, steps := [] }

theorem length_filterMap_of_isSome {α β : Type} (f : α → Option β) :
    ∀ l : List α, (∀ a ∈ l, (f a).isSome) → (l.filterMap f).length = l.length := by
  intro l
  induction l with
  | nil => intro _; rfl
  | cons x xs ih =>
    intro h
    have hx := h x (List.mem_cons_self x xs)
    obtain ⟨b, hb⟩ := Option.isSome_iff_exists.mp hx
    simp only [List.filterMap_cons, hb, List.length_cons]
    rw [ih (fun a ha => h a (List.mem_cons_of_mem x ha))]

theorem edgeLine_isSome (jobs : List JobNode) (hne : jobs ≠ []) (e : Edge) :
    (edgeLine jobs e).isSome := by
  cases jobs with
  | nil => exact absurd rfl hne
  | cons j js =>
    unfold edgeLine
    simp only [List.isEmpty_cons, Bool.false_eq_true, if_false, List.head?_cons]
    cases h1 : (List.find? (fun job => job.name == mapJobIdToApiName e.1 (j :: js)) (j :: js)).or (some j) with
    | none => simp at h1
    | some a =>
      cases h2 : (List.find? (fun job => job.name == mapJobIdToApiName e.2 (j :: js)) (j :: js)).or (some j) with
      | none => simp at h2
      | some b => simp

theorem toDigitsCore_ten (fuel : Nat) :
    ∀ (n : Nat) (acc : List Char), n < fuel →
      Nat.toDigitsCore 10 fuel n acc = digitsRepr n ++ acc := by
  induction fuel with
  | zero => intro n acc h; omega
  | succ fuel ih =>
    intro n acc h
    by_cases h0 : n / 10 = 0
    · have hstep : Nat.toDigitsCore 10 (fuel + 1) n acc = Nat.digitChar (n % 10) :: acc := by
        simp [Nat.toDigitsCore, h0]
      by_cases hn : n = 0
      · subst hn
        simp [hstep, digitsRepr, Nat.digitChar]
      · have hlt : n < 10 := by
          rcases Nat.lt_or_ge n 10 with h | h
          · exact h
          · exact absurd h0 (by have := Nat.div_le_div_right (c := 10) h; simp at this; omega)
        have hmod : n % 10 = n := Nat.mod_eq_of_lt hlt
        rw [hstep, digitsRepr, if_neg hn]
        rw [Nat.digits_def' (by norm_num : (1:ℕ) < 10) (Nat.pos_of_ne_zero hn), h0]
        simp [hmod]
    · have hpos : 0 < n := by
        rcases Nat.eq_zero_or_pos n with rfl | h
        · simp at h0
        · exact h
      have hrec : n / 10 < fuel := by
        have : n / 10 < n := Nat.div_lt_self hpos (by norm_num)
        omega
      have hstep : Nat.toDigitsCore 10 (fuel + 1) n acc =
          Nat.toDigitsCore 10 fuel (n / 10) (Nat.digitChar (n % 10) :: acc) := by
        simp [Nat.toDigitsCore, h0]
      rw [hstep, ih (n / 10) _ hrec]
      have hn : n ≠ 0 := by omega
      have hd1 : digitsRepr (n / 10) = (List.map Nat.digitChar (Nat.digits 10 (n / 10))).reverse := by
        rw [digitsRepr, if_neg h0]
      have hd2 : digitsRepr n = (List.map Nat.digitChar (Nat.digits 10 n)).reverse := by
        rw [digitsRepr, if_neg hn]
      rw [hd1, hd2, Nat.digits_def' (by norm_num : (1:ℕ) < 10) hpos]
      simp

theorem repr_data (n : Nat) : (Nat.repr n).data = digitsRepr n := by
  show ((Nat.toDigits 10 n).asString).data = digitsRepr n
  rw [Nat.toDigits, toDigitsCore_ten (n + 1) n [] (Nat.lt_succ_self n), List.append_nil]
  rfl

theorem decVal_digitChar {d : Nat} (h : d < 10) : decVal (Nat.digitChar d) = d := by
  interval_cases d <;> decide

theorem digitChar_ne_underscore {d : Nat} (h : d < 10) : Nat.digitChar d ≠ '_' := by
  interval_cases d <;> decide

theorem underscore_not_mem_digitsRepr (n : Nat) : '_' ∉ digitsRepr n := by
  unfold digitsRepr
  split
  · decide
  · intro hmem
    rw [List.mem_reverse, List.mem_map] at hmem
    obtain ⟨d, hd, hEq⟩ := hmem
    have hlt : d < 10 := Nat.digits_lt_base (by norm_num) hd
    exact digitChar_ne_underscore hlt hEq

theorem digitsRepr_injective {m n : Nat} (h : digitsRepr m = digitsRepr n) : m = n := by
  have key : ∀ k : Nat, Nat.ofDigits 10 (((digitsRepr k).map decVal).reverse) = (k : ℕ) := by
    intro k
    unfold digitsRepr
    by_cases hk : k = 0
    · subst hk; simp [decVal, Nat.ofDigits]
    · rw [if_neg hk, List.map_reverse, List.reverse_reverse, List.map_map]
      have : (Nat.digits 10 k).map (decVal ∘ Nat.digitChar) = (Nat.digits 10 k).map id := by
        apply List.map_congr_left
        intro d hd
        exact decVal_digitChar (Nat.digits_lt_base (by norm_num) hd)
      rw [this, List.map_id]
      exact_mod_cast Nat.ofDigits_digits 10 k
  have := key m
  rw [h, key n] at this
  exact_mod_cast this.symm

theorem reprNat_injective {m n : Nat} (h : (Nat.repr m).data = (Nat.repr n).data) : m = n := by
  apply digitsRepr_injective
  rw [← repr_data, ← repr_data, h]

theorem before_first_sep {α : Type} {c : α} :
    ∀ (p q s t : List α), c ∉ p → c ∉ q → p ++ c :: s = q ++ c :: t → p = q ∧ s = t := by
  intro p
  induction p with
  | nil =>
    intro q s t _ hq h
    cases q with
    | nil => simp_all
    | cons y ys =>
      rw [List.nil_append, List.cons_append, List.cons_eq_cons] at h
      exact absurd h.1 (fun hc => hq (hc ▸ List.mem_cons_self y ys))
  | cons x xs ih =>
    intro q s t hp hq h
    cases q with
    | nil =>
      rw [List.nil_append, List.cons_append, List.cons_eq_cons] at h
      exact absurd h.1.symm (fun hc => hp (hc ▸ List.mem_cons_self x xs))
    | cons y ys =>
      rw [List.cons_append, List.cons_append, List.cons_eq_cons] at h
      have hrec := ih ys s t (fun hm => hp (List.mem_cons_of_mem x hm))
        (fun hm => hq (List.mem_cons_of_mem y hm)) h.2
      exact ⟨by rw [h.1, hrec.1], hrec.2⟩

theorem suffix_after_last_sep {c : Char} (a b s t : List Char)
    (hs : c ∉ s) (ht : c ∉ t) (h : a ++ c :: s = b ++ c :: t) : s = t := by
  have hrev := congrArg List.reverse h
  rw [List.reverse_append, List.reverse_cons, List.reverse_append, List.reverse_cons] at hrev
  rw [List.append_assoc, List.singleton_append, List.append_assoc, List.singleton_append] at hrev
  have := before_first_sep s.reverse t.reverse a.reverse b.reverse
    (fun hm => hs (List.mem_reverse.mp hm)) (fun hm => ht (List.mem_reverse.mp hm)) hrev
  exact List.reverse_injective this.1

/-- C4: `ms` (the delta of the spec) returns null whenever either
timestamp is absent (null or the falsy empty string) or fails to parse
as a valid instant; when both parse it returns `max 0 (b - a)`, so when
`b` is chronologically no later than `a` the result is exactly 0 and
never negative.  `hEmpty` records that the JavaScript Date constructor
cannot parse the empty string. -/
theorem ms_delta_spec (parseDate : String → Option Int)
    (hEmpty : parseDate "" = none) :
    (∀ b, ms parseDate none b = none) ∧
    (∀ a, ms parseDate a none = none) ∧
    (∀ sa b, parseDate sa = none → ms parseDate (some sa) b = none) ∧
    (∀ a sb, parseDate sb = none → ms parseDate a (some sb) = none) ∧
    (∀ sa sb da db, parseDate sa = some da → parseDate sb = some db →
      ms parseDate (some sa) (some sb) = some (max 0 (db - da))) ∧
    (∀ sa sb da db, parseDate sa = some da → parseDate sb = some db → db ≤ da →
      ms parseDate (some sa) (some sb) = some 0) := by
  have hpos : ∀ sa sb da db, parseDate sa = some da → parseDate sb = some db →
      ms parseDate (some sa) (some sb) = some (max 0 (db - da)) := by
    intro sa sb da db ha hb
    have hsa : ¬ sa = "" := fun h => by rw [h, hEmpty] at ha; exact Option.noConfusion ha
    have hsb : ¬ sb = "" := fun h => by rw [h, hEmpty] at hb; exact Option.noConfusion hb
    show (if sa = "" ∨ sb = "" then none else _) = _
    rw [if_neg (by tauto), ha, hb]
  refine ⟨fun b => rfl, fun a => by cases a <;> rfl, ?_, ?_, hpos, ?_⟩
  · intro sa b ha
    cases b with
    | none => rfl
    | some sb =>
      show (if sa = "" ∨ sb = "" then none else _) = _
      by_cases hif : sa = "" ∨ sb = ""
      · rw [if_pos hif]
      · rw [if_neg hif, ha]
  · intro a sb hb
    cases a with
    | none => rfl
    | some sa =>
      show (if sa = "" ∨ sb = "" then none else _) = _
      by_cases hif : sa = "" ∨ sb = ""
      · rw [if_pos hif]
      · rw [if_neg hif, hb]
        cases parseDate sa <;> rfl
  · intro sa sb da db ha hb hle
    rw [hpos sa sb da db ha hb]
    have : max 0 (db - da) = 0 := by omega
    rw [this]

/-- Witness for C4 at the concrete parser `sampleParseDate` and the
concrete pair ("2020", "20"), whose second instant is earlier. -/
theorem ms_delta_spec_witness :
    sampleParseDate "" = none ∧
    ms sampleParseDate (some "2020") (some "20") = some 0 ∧
    ms sampleParseDate none (some "20") = none :=
  ⟨rfl,
    (ms_delta_spec sampleParseDate rfl).2.2.2.2.2 "2020" "20" 4 2 rfl rfl (by decide),
    (ms_delta_spec sampleParseDate rfl).1 (some "20")⟩

/-- C5: `fmtDuration` (the format of the spec) renders null as the em
dash placeholder, 0 as "0s" and 65000 as "1m 5s"; in general the value
is rounded to a whole number of seconds `t` (half-up), decomposed as
`t = m * 60 + s` with `s < 60`, and rendered as minutes-and-seconds
when `m > 0`, else as seconds only. -/
theorem fmtDuration_spec :
    fmtDuration none = "—" ∧
    fmtDuration (some 0) = "0s" ∧
    fmtDuration (some 65000) = "1m 5s" ∧
    ∀ n : Nat, ∃ t m s,
      1000 * t ≤ n + 500 ∧ n + 500 < 1000 * (t + 1) ∧
      m * 60 + s = t ∧ s < 60 ∧
      fmtDuration (some n) =
        (if 0 < m then toString m ++ "m " ++ toString s ++ "s" else toString s ++ "s") := by
  refine ⟨rfl, by decide, by decide, ?_⟩
  intro n
  refine ⟨(n + 500) / 1000, (n + 500) / 1000 / 60, (n + 500) / 1000 % 60, ?_, ?_, ?_, ?_, ?_⟩
  · have := Nat.div_add_mod (n + 500) 1000
    omega
  · have h1 := Nat.div_add_mod (n + 500) 1000
    have h2 : (n + 500) % 1000 < 1000 := Nat.mod_lt _ (by omega)
    omega
  · have := Nat.div_add_mod ((n + 500) / 1000) 60
    omega
  · exact Nat.mod_lt _ (by omega)
  · show (if (n + 500) / 1000 / 60 ≤ 0 then _ else _) = _
    rcases Nat.eq_zero_or_pos ((n + 500) / 1000 / 60) with h | h
    · rw [if_pos (by omega), if_neg (by omega)]
    · rw [if_neg (by omega), if_pos h]

/-- C6: when the definition file exists but its content fails to parse,
`parseNeedsEdges` propagates the parse error instead of returning an
edge sequence, and the whole `run` slice aborts with that error, so no
summary output is produced. -/
theorem malformed_definition_aborts (wfPath errMsg : String)
    (jobs : List JobNode) (graphFormat : String) :
    parseNeedsEdges true (Except.error errMsg) = Except.error errMsg ∧
    runCore (some wfPath) true (Except.error errMsg) jobs graphFormat =
      Except.error errMsg :=
  ⟨rfl, rfl⟩

/-- C2 (divergence witness): for the unsupported graph format "dot" the
operation does not fail and the warning is recorded, but the Pipeline
section of the summary receives the placeholder text rather than the
Mermaid graph that the default format would have produced. -/
theorem unsupported_format_placeholder :
    runCore none true (Except.ok Yaml.null) [demoJob] "dot" =
      Except.ok { warnedUnsupportedGraph := true,
                  pipelineSection := "Mermaid graph is not available yet.",
                  edges := [] } ∧
    runCore none true (Except.ok Yaml.null) [demoJob] "mermaid" =
      Except.ok { warnedUnsupportedGraph := false,
                  pipelineSection := mermaidFlowLR [demoJob] [],
                  edges := [] } ∧
    mermaidFlowLR [demoJob] [] ≠ "Mermaid graph is not available yet." :=
  ⟨rfl, rfl, by decide⟩

theorem strStartsWith_append_left (s a b : String)
    (h : strStartsWith s (a ++ b) = true) : strStartsWith s a = true := by
  unfold strStartsWith at h ⊢
  rw [List.isPrefixOf_iff_prefix] at h ⊢
  rw [String.data_append] at h
  calc a.data <+: a.data ++ b.data := ⟨b.data, rfl⟩
    _ <+: s.data := h

/-- C3: whenever some runtime node name equals the identifier verbatim,
`mapJobIdToApiName` returns the name of the first such node in input
order (the list decomposes with no earlier exact match), hence the
result is the exact match and never a weaker prefix or bracket match. -/
theorem exact_match_wins (jobId : String) (jobs : List JobNode)
    (h : ∃ j ∈ jobs, j.name = jobId) :
    ∃ pre j post, jobs = pre ++ j :: post ∧ j.name = jobId ∧
      (∀ k ∈ pre, k.name ≠ jobId) ∧
      mapJobIdToApiName jobId jobs = j.name := by
  obtain ⟨j0, hj0, hname⟩ := h
  have hsome : (jobs.find? (fun job => job.name == jobId)).isSome := by
    rw [List.find?_isSome]
    exact ⟨j0, hj0, by simp [hname]⟩
  obtain ⟨j, hj⟩ := Option.isSome_iff_exists.mp hsome
  obtain ⟨hpj, pre, post, hsplit, hpre⟩ := List.find?_eq_some.mp hj
  refine ⟨pre, j, post, hsplit, by simpa using hpj, ?_, ?_⟩
  · intro k hk
    have := hpre k hk
    simpa using this
  · unfold mapJobIdToApiName
    rw [hj]

/-- Witness for C3: the decoy "build (linux)" comes first and matches
the weaker prefix and bracket rules, yet resolution picks the exact
node "build". -/
theorem exact_match_wins_witness :
    (∃ j ∈ [{ demoJob with id := 7, name := "build (linux)" }, demoJob],
        j.name = "build") ∧
    (∃ pre j post,
      [{ demoJob with id := 7, name := "build (linux)" }, demoJob] = pre ++ j :: post ∧
      j.name = "build" ∧ (∀ k ∈ pre, k.name ≠ "build") ∧
      mapJobIdToApiName "build"
        [{ demoJob with id := 7, name := "build (linux)" }, demoJob] = j.name) :=
  ⟨by decide,
    exact_match_wins "build" [{ demoJob with id := 7, name := "build (linux)" }, demoJob]
      (by decide)⟩

/-- C10: the bracketed/matrix rule of `mapJobIdToApiName` is dead code:
a name starting with the identifier followed by " (" already starts
with the identifier, so the bracket search runs only when the prefix
search has failed, where it must fail too; the three-rule resolver
therefore agrees everywhere with the two-rule resolver
`mapJobIdToApiNameNoBracket`. -/
theorem bracket_rule_redundant (jobId : String) (jobs : List JobNode) :
    (∀ j : JobNode, strStartsWith j.name (jobId ++ " (") = true →
      strStartsWith j.name jobId = true) ∧
    mapJobIdToApiName jobId jobs = mapJobIdToApiNameNoBracket jobId jobs := by
  refine ⟨fun j hj => strStartsWith_append_left j.name jobId " (" hj, ?_⟩
  unfold mapJobIdToApiName mapJobIdToApiNameNoBracket
  cases hx : jobs.find? (fun job => job.name == jobId) with
  | some je => rfl
  | none =>
    cases hp : jobs.find? (fun job => strStartsWith job.name jobId) with
    | some jp => rfl
    | none =>
      have hb : jobs.find? (fun job => strStartsWith job.name (jobId ++ " (")) = none := by
        rw [List.find?_eq_none] at hp ⊢
        intro j hjmem hjb
        exact hp j hjmem (strStartsWith_append_left j.name jobId " (" hjb)
      rw [hb]

theorem resolves_eq_false_elim (jobId : String) (jobs : List JobNode)
    (h : resolves jobId jobs = false) :
    jobs.find? (fun job => job.name == jobId) = none ∧
    mapJobIdToApiName jobId jobs = jobId := by
  unfold resolves at h
  rw [List.any_eq_false] at h
  have hex : jobs.find? (fun job => job.name == jobId) = none := by
    rw [List.find?_eq_none]
    intro j hj hp
    exact h j hj (by simp [hp])
  have hpre : jobs.find? (fun job => strStartsWith job.name jobId) = none := by
    rw [List.find?_eq_none]
    intro j hj hp
    exact h j hj (by simp [hp])
  have hbr : jobs.find? (fun job => strStartsWith job.name (jobId ++ " (")) = none := by
    rw [List.find?_eq_none]
    intro j hj hp
    exact h j hj (by simp [hp])
  refine ⟨hex, ?_⟩
  unfold mapJobIdToApiName
  rw [hex, hpre, hbr]

/-- C1 (amended): with a non-empty node sequence every logical edge
produces exactly one edge line — an endpoint that fails to resolve is
rebound to the first runtime node rather than dropped — so the rendered
edge-line count equals the input edge count and rendering succeeds. -/
theorem nonempty_jobs_render_every_edge (jobs : List JobNode) (edges : List Edge)
    (j : JobNode) (hhead : jobs.head? = some j) :
    (edges.filterMap (edgeLine jobs)).length = edges.length ∧
    ∀ e ∈ edges, resolves e.1 jobs = false → resolves e.2 jobs = false →
      edgeLine jobs e = some (nodeId j ++ " --> " ++ nodeId j) := by
  cases jobs with
  | nil => simp at hhead
  | cons j0 js =>
    have hj : j0 = j := by simpa using hhead
    subst hj
    constructor
    · exact length_filterMap_of_isSome _ edges
        (fun e _ => edgeLine_isSome (j0 :: js) (by simp) e)
    · intro e _ h1 h2
      obtain ⟨hex1, hmap1⟩ := resolves_eq_false_elim e.1 _ h1
      obtain ⟨hex2, hmap2⟩ := resolves_eq_false_elim e.2 _ h2
      unfold edgeLine
      simp only [List.isEmpty_cons, Bool.false_eq_true, if_false, List.head?_cons]
      rw [hmap1, hmap2, hex1, hex2]
      rfl

/-- Witness for the amended C1: one node, one edge with two unresolved
endpoints; the edge is still rendered, looping on the first node. -/
theorem nonempty_jobs_render_every_edge_witness :
    ([demoJob].head? = some demoJob) ∧
    ((([("nosuch", "zilch")] : List Edge).filterMap (edgeLine [demoJob])).length = 1 ∧
      ∀ e ∈ ([("nosuch", "zilch")] : List Edge),
        resolves e.1 [demoJob] = false → resolves e.2 [demoJob] = false →
          edgeLine [demoJob] e = some (nodeId demoJob ++ " --> " ++ nodeId demoJob)) :=
  ⟨rfl, nonempty_jobs_render_every_edge [demoJob] [("nosuch", "zilch")] demoJob rfl⟩

/-- Counterexample to C1 as stated: the edge ("nosuch", "build") has an
endpoint that no rule resolves, yet the renderer does not omit it — the
edge-line count stays 1 and the rendered text contains a line binding
the unresolved endpoint to the first node. -/
theorem unresolved_edge_rendered_not_dropped :
    resolves "nosuch" [demoJob] = false ∧
    List.filterMap (edgeLine [demoJob]) [("nosuch", "build")] =
      ["J_build_1 --> J_build_1"] ∧
    mermaidFlowLR [demoJob] [("nosuch", "build")] =
      "```mermaid\nflowchart LR\n" ++ nodeLine demoJob ++
        "\nJ_build_1 --> J_build_1\n```" :=
  ⟨by decide, by decide, by decide⟩

/-- C8: when every edge endpoint resolves, the rendered graph is the
header followed by exactly one node line per runtime node (in input
order) and exactly one edge line per input edge — duplicates preserved,
none dropped. -/
theorem renderer_keeps_everything_when_resolved (jobs : List JobNode)
    (edges : List Edge)
    (h : ∀ e ∈ edges, resolves e.1 jobs = true ∧ resolves e.2 jobs = true) :
    mermaidFlowLR jobs edges =
      "```mermaid\n" ++
        String.intercalate "\n"
          ("flowchart LR" :: (jobs.map nodeLine ++ edges.filterMap (edgeLine jobs))) ++
        "\n```" ∧
    (jobs.map nodeLine).length = jobs.length ∧
    (edges.filterMap (edgeLine jobs)).length = edges.length := by
  cases jobs with
  | nil =>
    have hedges : edges = [] := by
      cases edges with
      | nil => rfl
      | cons e es =>
        have := (h e (List.mem_cons_self e es)).1
        simp [resolves] at this
    subst hedges
    exact ⟨by decide, rfl, rfl⟩
  | cons j js =>
    refine ⟨by simp [mermaidFlowLR], by simp, ?_⟩
    exact length_filterMap_of_isSome _ edges
      (fun e _ => edgeLine_isSome (j :: js) (by simp) e)

/-- Witness for C8 at Scenario A of the spec: two nodes, one edge, both
endpoints resolving exactly. -/
theorem renderer_keeps_everything_witness :
    (∀ e ∈ ([("build", "test")] : List Edge),
      resolves e.1 [demoJob, { demoJob with id := 2, name := "test" }] = true ∧
      resolves e.2 [demoJob, { demoJob with id := 2, name := "test" }] = true) ∧
    (mermaidFlowLR [demoJob, { demoJob with id := 2, name := "test" }] [("build", "test")] =
      "```mermaid\n" ++
        String.intercalate "\n"
          ("flowchart LR" ::
            ([demoJob, { demoJob with id := 2, name := "test" }].map nodeLine ++
              ([("build", "test")] : List Edge).filterMap
                (edgeLine [demoJob, { demoJob with id := 2, name := "test" }]))) ++
        "\n```" ∧
    ([demoJob, { demoJob with id := 2, name := "test" }].map nodeLine).length = 2 ∧
    (([("build", "test")] : List Edge).filterMap
        (edgeLine [demoJob, { demoJob with id := 2, name := "test" }])).length = 1) :=
  ⟨by decide,
    renderer_keeps_everything_when_resolved
      [demoJob, { demoJob with id := 2, name := "test" }] [("build", "test")] (by decide)⟩

theorem nodeId_data_shape (j : JobNode) :
    (nodeId j).data =
      ("J_".data ++ (sanitizeId j.name).data) ++ '_' :: (Nat.repr j.id).data := by
  have hu : ("_" : String).data = ['_'] := rfl
  simp [nodeId, hu, List.append_assoc]

theorem underscore_not_mem_repr (n : Nat) : '_' ∉ (Nat.repr n).data := by
  rw [repr_data]
  exact underscore_not_mem_digitsRepr n

/-- C9: two runtime nodes with distinct numeric ids always receive
distinct rendered identifiers, because the decimal id is the segment
after the last underscore and decimal representations are injective —
even when sanitization collapses the two names. -/
theorem nodeIds_distinct_for_distinct_ids (jobs : List JobNode)
    (j1 j2 : JobNode) (h1 : j1 ∈ jobs) (h2 : j2 ∈ jobs)
    (hid : j1.id ≠ j2.id) : nodeId j1 ≠ nodeId j2 := by
  intro heq
  apply hid
  apply reprNat_injective
  have hdata := congrArg String.data heq
  rw [nodeId_data_shape j1, nodeId_data_shape j2] at hdata
  exact suffix_after_last_sep _ _ _ _
    (underscore_not_mem_repr j1.id) (underscore_not_mem_repr j2.id) hdata

/-- Witness for C9: two nodes whose distinct names sanitize to the same
string, with distinct ids, still get distinct node identifiers. -/
theorem nodeIds_distinct_witness :
    ({ demoJob with name := "a!b" } ∈
        [{ demoJob with name := "a!b" }, { demoJob with id := 2, name := "a?b" }]) ∧
    ({ demoJob with id := 2, name := "a?b" } ∈
        [{ demoJob with name := "a!b" }, { demoJob with id := 2, name := "a?b" }]) ∧
    ({ demoJob with name := "a!b" } : JobNode).id ≠
      ({ demoJob with id := 2, name := "a?b" } : JobNode).id ∧
    sanitizeId "a!b" = sanitizeId "a?b" ∧
    nodeId { demoJob with name := "a!b" } ≠ nodeId { demoJob with id := 2, name := "a?b" } :=
  ⟨by decide, by decide, by decide, by decide,
    nodeIds_distinct_for_distinct_ids
      [{ demoJob with name := "a!b" }, { demoJob with id := 2, name := "a?b" }]
      { demoJob with name := "a!b" } { demoJob with id := 2, name := "a?b" }
      (by decide) (by decide) (by decide)⟩

/-- Counterexample to C7 as stated: a needs field holding the single
identifier string "" is falsy in JavaScript and contributes no edges,
while the same identifier inside a one-element list yields one edge, so
the two spellings are not equivalent for every identifier string. -/
theorem needs_empty_string_not_equivalent :
    extractEdges (.map [("jobs", .map [("x", .map [("needs", Yaml.str "")])])]) = [] ∧
    extractEdges (.map [("jobs", .map [("x", .map [("needs", Yaml.arr [Yaml.str ""])])])]) =
      [("", "x")] :=
  ⟨rfl, rfl⟩

/-- C7 (amended): for every non-empty identifier string, a needs field
holding the single string emits exactly the edge (identifier, jobId),
the same as the one-element list spelling, in any document position;
and entries without a needs field contribute no edges. -/
theorem needs_string_equals_singleton (s jobId : String) (hs : ¬ s = "")
    (defRest pre post top : List (String × Yaml)) :
    jobEdges jobId (.map (("needs", Yaml.str s) :: defRest)) = [(s, jobId)] ∧
    jobEdges jobId (.map (("needs", Yaml.arr [Yaml.str s]) :: defRest)) = [(s, jobId)] ∧
    extractEdges (.map (("jobs",
        .map (pre ++ (jobId, .map (("needs", Yaml.str s) :: defRest)) :: post)) :: top)) =
      extractEdges (.map (("jobs",
        .map (pre ++ (jobId, .map (("needs", Yaml.arr [Yaml.str s]) :: defRest)) :: post)) :: top)) ∧
    ∀ (jid : String) (jobDef : Yaml),
      jobDef.getField "needs" = none → jobEdges jid jobDef = [] := by
  have h1 : jobEdges jobId (.map (("needs", Yaml.str s) :: defRest)) = [(s, jobId)] := by
    simp [jobEdges, Yaml.getField, Yaml.truthy, Yaml.jsToString, hs]
  have h2 : jobEdges jobId (.map (("needs", Yaml.arr [Yaml.str s]) :: defRest)) = [(s, jobId)] := by
    simp [jobEdges, Yaml.getField, Yaml.truthy, Yaml.jsToString]
  have hext : ∀ L : List (String × Yaml),
      extractEdges (.map (("jobs", .map L) :: top)) =
        (L.map (fun kv => jobEdges kv.1 kv.2)).flatten := by
    intro L
    simp [extractEdges, Yaml.getField, Yaml.truthy, Yaml.jsEntries]
  refine ⟨h1, h2, ?_, ?_⟩
  · rw [hext, hext, List.map_append, List.map_append, List.map_cons, List.map_cons,
      List.flatten_append, List.flatten_append, List.flatten_cons, List.flatten_cons]
    simp only []
    rw [h1, h2]
  · intro jid jobDef hnone
    unfold jobEdges
    rw [hnone]

/-- Witness for the amended C7 at the identifier "build". -/
theorem needs_string_equals_singleton_witness :
    (¬ ("build" : String) = "") ∧
    (jobEdges "x" (.map [("needs", Yaml.str "build")]) = [("build", "x")] ∧
     jobEdges "x" (.map [("needs", Yaml.arr [Yaml.str "build"])]) = [("build", "x")] ∧
     extractEdges (.map [("jobs", .map [("x", .map [("needs", Yaml.str "build")])])]) =
       extractEdges (.map [("jobs", .map [("x", .map [("needs", Yaml.arr [Yaml.str "build"])])])]) ∧
     ∀ (jid : String) (jobDef : Yaml),
       jobDef.getField "needs" = none → jobEdges jid jobDef = []) :=
  ⟨by decide, needs_string_equals_singleton "build" "x" (by decide) [] [] [] []⟩
